import Mathlib

set_option autoImplicit false

namespace RasaEngine

/-- A lookup in a Python dict modelled as an association list: the first
entry whose key matches wins (Python dicts have unique keys). -/
def dget {α : Type} : List (String × α) → String → Option α
  | [], _ => none
  | (k, v) :: rest, key => if k = key then some v else dget rest key

/-- Python dict assignment `d[key] = v`: replaces the value in place when the
key exists (keeping its position), otherwise appends the new entry. -/
def setKey {α : Type} : List (String × α) → String → α → List (String × α)
  | [], key, v => [(key, v)]
  | (k, w) :: rest, key, v =>
    if k = key then (key, v) :: rest else (k, w) :: setKey rest key v

/-- Python `d.pop(key)` guarded by `key in d`: returns the removed value (if
present) and the remaining dict. -/
def popKey {α : Type} : List (String × α) → String → Option α × List (String × α)
  | [], _ => (none, [])
  | (k, w) :: rest, key =>
    if k = key then (some w, rest)
    else
      let r := popKey rest key
      (r.1, (k, w) :: r.2)

/-- Python list membership `x in l` for strings. -/
def memb (s : String) : List String → Bool
  | [] => false
  | x :: xs => if x = s then true else memb s xs

/-- Modelled from the spec: `Resource` (rasa/engine/storage/resource.py is not
part of the sources) is "a lightweight named handle (string name)" declared as
a dataclass, serialized by flattening to its primitive fields. -/
structure Resource where
  name : String
deriving DecidableEq

/-- A Python class object, identified by the module it lives in and its name. -/
structure PyClass where
  module : String
  clsName : String
deriving DecidableEq

/-- The dotted import path `f"{cls.__module__}.{cls.__name__}"` used by
`GraphSchema.as_dict`. -/
def dottedPath (c : PyClass) : String := c.module ++ "." ++ c.clsName

/-- The universe of values appearing in a serialized graph schema: JSON-style
data plus the Python objects `from_dict` writes back into the dict (class
objects and `Resource` instances). -/
inductive SerVal where
  | str : String → SerVal
  | boolv : Bool → SerVal
  | intv : Int → SerVal
  | nonev : SerVal
  | dict : List (String × SerVal) → SerVal
  | cls : PyClass → SerVal
  | res : Resource → SerVal

mutual
/-- `dataclasses.asdict` conversion applied to one value: nested dataclasses
(here `Resource`) become dicts of their fields; dicts are recursed into;
all other values are kept (deep copy preserves equality). -/
def asdictVal : SerVal → SerVal
  | SerVal.dict kvs => SerVal.dict (asdictEntries kvs)
  | SerVal.res r => SerVal.dict [("name", SerVal.str r.name)]
  | v => v

/-- `dataclasses.asdict` conversion applied to each value of a dict. -/
def asdictEntries : List (String × SerVal) → List (String × SerVal)
  | [] => []
  | (k, v) :: rest => (k, asdictVal v) :: asdictEntries rest
end

/-- Python truthiness (`if resource:`) for the serialized values. -/
def pyTruthy : SerVal → Bool
  | SerVal.str s => s.length != 0
  | SerVal.boolv b => b
  | SerVal.intv n => n != 0
  | SerVal.nonev => false
  | SerVal.dict kvs => !kvs.isEmpty
  | SerVal.cls _ => true
  | SerVal.res _ => true

/-- The string a Python f-string interpolates for a serialized value (only the
string case is ever reached by the code paths modelled here). -/
def pyStr : SerVal → String
  | SerVal.str s => s
  | _ => ""

/-- `SchemaNode` from rasa/engine/graph.py: one node of the schema. -/
structure SchemaNode where
  needs : List (String × String)
  uses : PyClass
  constructor_name : String
  fn : String
  config : List (String × SerVal)
  eager : Bool := false
  is_target : Bool := false
  is_input : Bool := false
  resource : Option Resource := none

/-- `GraphSchema` from rasa/engine/graph.py: a mapping of node name to
`SchemaNode`, modelled as an association list with unique keys. -/
structure GraphSchema where
  nodes : List (String × SchemaNode)

/-- A serialized node: the dict `dataclasses.asdict` produces for one
`SchemaNode` (and that `from_dict` later mutates in place). -/
abbrev SerDict := List (String × SerVal)

/-- The `needs` dict of a node in serialized form. -/
def needsToSer (needs : List (String × String)) : List (String × SerVal) :=
  needs.map (fun p => (p.1, SerVal.str p.2))

/-- `GraphSchema.as_dict` applied to one node: `dataclasses.asdict(node)`
(field order preserved, nested dataclasses flattened — which reaches into
`config` values as well) followed by replacing `uses` with the dotted path. -/
def nodeAsDict (n : SchemaNode) : SerDict :=
  [("needs", SerVal.dict (needsToSer n.needs)),
   ("uses", SerVal.str (dottedPath n.uses)),
   ("constructor_name", SerVal.str n.constructor_name),
   ("fn", SerVal.str n.fn),
   ("config", SerVal.dict (asdictEntries n.config)),
   ("eager", SerVal.boolv n.eager),
   ("is_target", SerVal.boolv n.is_target),
   ("is_input", SerVal.boolv n.is_input),
   ("resource", match n.resource with
     | some r => SerVal.dict [("name", SerVal.str r.name)]
     | none => SerVal.nonev)]

/-- `GraphSchema.as_dict`: serializes every node. -/
def asDict (g : GraphSchema) : List (String × SerDict) :=
  g.nodes.map (fun p => (p.1, nodeAsDict p.2))

/-- The Python exceptions the modelled code can raise.
`graphSchemaException` and `graphComponentException` are modelled from the
spec (rasa/engine/exceptions.py is not part of the sources): each carries its
message and, when raised with `from e`, the original exception as cause. -/
inductive PyExc where
  | importError : String → PyExc
  | keyError : String → PyExc
  | typeError : String → PyExc
  | graphSchemaException : String → PyExc → PyExc
  | graphComponentException : String → PyExc → PyExc
deriving DecidableEq

/-- Modelled from the spec: `rasa.shared.utils.common.class_from_module_path`
(not part of the sources) resolves a dotted import path back to a class and
raises `ImportError` when the class cannot be imported/found. The importable
environment is a parameter `env`. -/
def classFromModulePath (env : String → Option PyClass) : SerVal → Except PyExc PyClass
  | SerVal.str path =>
    match env path with
    | some c => Except.ok c
    | none => Except.error (PyExc.importError path)
  | _ => Except.error (PyExc.typeError "class_from_module_path expects a string")

/-- Python `d[key]` on a serialized node: a missing key raises `KeyError`. -/
def getKey (d : SerDict) (key : String) : Except PyExc SerVal :=
  match dget d key with
  | some v => Except.ok v
  | none => Except.error (PyExc.keyError key)

/-- `Resource(**resource)`: reconstructs the resource from its flattened
field map (the spec gives it the single field `name`). -/
def mkResource : List (String × SerVal) → Except PyExc Resource
  | [("name", SerVal.str n)] => Except.ok ⟨n⟩
  | _ => Except.error (PyExc.typeError "Resource kwargs")

/-- The `try:` block of `GraphSchema.from_dict` for one node: resolve the
`uses` path and write the class object back into the dict, then look up
`resource` (a missing key raises `KeyError` here) and, when truthy, replace
it in place by a reconstructed `Resource`. -/
def tryBlock (env : String → Option PyClass) (snode : SerDict) : Except PyExc SerDict := do
  let usesVal ← getKey snode "uses"
  let c ← classFromModulePath env usesVal
  let resVal ← getKey (setKey snode "uses" (SerVal.cls c)) "resource"
  if pyTruthy resVal then
    match resVal with
    | SerVal.dict kvs => do
      let r ← mkResource kvs
      pure (setKey (setKey snode "uses" (SerVal.cls c)) "resource" (SerVal.res r))
    | _ => Except.error (PyExc.typeError "Resource kwargs")
  else
    pure (setKey snode "uses" (SerVal.cls c))

/-- Parsing the values of the serialized `needs` dict back into the typed
field (`SchemaNode(**serialized_node)` with the declared field types). -/
def parseNeedsEntries : List (String × SerVal) → Except PyExc (List (String × String))
  | [] => Except.ok []
  | (k, SerVal.str v) :: rest => (parseNeedsEntries rest).map (fun l => (k, v) :: l)
  | _ => Except.error (PyExc.typeError "needs")

/-- The field names of the `SchemaNode` dataclass in declaration order. -/
def schemaNodeFieldNames : List String :=
  ["needs", "uses", "constructor_name", "fn", "config",
   "eager", "is_target", "is_input", "resource"]

/-- `SchemaNode(**serialized_node)`: reconstructs the dataclass from the
(by now mutated) dict. Unknown or missing required fields are a hard error
(`TypeError` in Python); the declared field types are enforced — every dict
produced by `as_dict` and mutated by `from_dict` satisfies them. -/
def parseSchemaNode (d : SerDict) : Except PyExc SchemaNode := do
  if !(d.all (fun kv => memb kv.1 schemaNodeFieldNames)) then
    Except.error (PyExc.typeError "unexpected keyword argument")
  else
    match dget d "needs", dget d "uses", dget d "constructor_name",
          dget d "fn", dget d "config" with
    | some (SerVal.dict needsSer), some (SerVal.cls c), some (SerVal.str cn),
      some (SerVal.str fnName), some (SerVal.dict cfg) => do
      let needs ← parseNeedsEntries needsSer
      let eager ← match dget d "eager" with
        | none => Except.ok false
        | some (SerVal.boolv b) => Except.ok b
        | some _ => Except.error (PyExc.typeError "eager")
      let isTarget ← match dget d "is_target" with
        | none => Except.ok false
        | some (SerVal.boolv b) => Except.ok b
        | some _ => Except.error (PyExc.typeError "is_target")
      let isInput ← match dget d "is_input" with
        | none => Except.ok false
        | some (SerVal.boolv b) => Except.ok b
        | some _ => Except.error (PyExc.typeError "is_input")
      let resource ← match dget d "resource" with
        | none => Except.ok none
        | some (SerVal.res r) => Except.ok (some r)
        | some SerVal.nonev => Except.ok none
        | some _ => Except.error (PyExc.typeError "resource")
      pure { needs := needs, uses := c, constructor_name := cn, fn := fnName,
             config := cfg, eager := eager, is_target := isTarget,
             is_input := isInput, resource := resource }
    | _, _, _, _, _ => Except.error (PyExc.typeError "missing required argument")

/-- One iteration of the `from_dict` loop: run the `try:` block, catch only
`ImportError` and re-raise it as a `GraphSchemaException` naming the (still
unmutated) `uses` entry, then build the `SchemaNode` from the mutated dict. -/
def processNode (env : String → Option PyClass) (snode : SerDict) :
    Except PyExc (SerDict × SchemaNode) := do
  let snode' ←
    match tryBlock env snode with
    | Except.ok s => Except.ok s
    | Except.error (PyExc.importError p) =>
      Except.error (PyExc.graphSchemaException
        ("Error deserializing graph schema. Can\'t find class for graph component type \'"
          ++ pyStr ((dget snode "uses").getD SerVal.nonev) ++ "\'.")
        (PyExc.importError p))
    | Except.error e => Except.error e
  let node ← parseSchemaNode snode'
  pure (snode', node)

/-- The loop of `GraphSchema.from_dict` over all serialized nodes, also
returning the serialized dict as the call leaves it (the source mutates the
caller\'s dict in place; the explicit state passing models that). -/
def fromDictGo (env : String → Option PyClass) :
    List (String × SerDict) → Except PyExc (List (String × SerDict) × List (String × SchemaNode))
  | [] => Except.ok ([], [])
  | (name, snode) :: rest => do
    let p ← processNode env snode
    let r ← fromDictGo env rest
    pure ((name, p.1) :: r.1, (name, p.2) :: r.2)

/-- `GraphSchema.from_dict`: loads a schema serialized by `as_dict`, returning
both the mutated input dict and the loaded schema. -/
def fromDict (env : String → Option PyClass) (d : List (String × SerDict)) :
    Except PyExc (List (String × SerDict) × GraphSchema) :=
  (fromDictGo env d).map (fun p => (p.1, ⟨p.2⟩))

/-- Python `self.nodes[name]` (dict lookup; a missing key would raise). -/
def findNode (g : GraphSchema) (name : String) : Option SchemaNode :=
  dget g.nodes name

/-- The parent names a node depends on: `node.needs.values()`. -/
def needsValues (node : SchemaNode) : List String :=
  node.needs.map Prod.snd

/-- `GraphSchema.target_names`: the names of all nodes flagged `is_target`,
in iteration order. -/
def targetNames (g : GraphSchema) : List String :=
  (g.nodes.filter (fun p => p.2.is_target)).map Prod.fst

/-- `GraphSchema._all_dependencies_schema(targets)`: for each target, record
it and recurse into each of its `needs` values. The Python recursion is
unbounded (it would not terminate on a cyclic schema), so the embedding
carries explicit `fuel` bounding the recursion depth: `none` models the
stack overflowing, and the theorems assert the behaviour at sufficient fuel. -/
def allDependenciesSchema (g : GraphSchema) (fuel : Nat) (targets : List String) :
    Option (List String) :=
  match fuel, targets with
  | _, [] => some []
  | 0, _ :: _ => none
  | fuel + 1, t :: ts =>
    match findNode g t with
    | none => none
    | some node =>
      match allDependenciesSchema g fuel (needsValues node),
            allDependenciesSchema g (fuel + 1) ts with
      | some l1, some l2 => some (t :: (l1 ++ l2))
      | _, _ => none
termination_by (fuel, targets.length)

/-- `GraphSchema.minimal_graph_schema`: keep exactly the nodes whose name
occurs in the dependency walk started from every target. -/
def minimalGraphSchema (g : GraphSchema) (fuel : Nat) : Option GraphSchema :=
  match allDependenciesSchema g fuel (targetNames g) with
  | none => none
  | some deps => some ⟨g.nodes.filter (fun p => memb p.1 deps)⟩

/-- `m` is reached from `t` by recursively following `needs` values. -/
inductive ReachableFrom (g : GraphSchema) : String → String → Prop where
  | refl (t : String) : ReachableFrom g t t
  | step {t m : String} {node : SchemaNode} (h : findNode g t = some node)
      (d : String) (hd : d ∈ needsValues node) (hr : ReachableFrom g d m) :
      ReachableFrom g t m

/-- `m` is reached from some target node by recursively following `needs`. -/
def Reachable (g : GraphSchema) (m : String) : Prop :=
  ∃ t ∈ targetNames g, ReachableFrom g t m

/-- Acyclicity of the `needs` graph: some rank decreases strictly along every
dependency edge. -/
def Acyclic (g : GraphSchema) : Prop :=
  ∃ rank : String → Nat,
    ∀ p ∈ g.nodes, ∀ d ∈ needsValues p.2, rank d < rank p.1

/-- The values flowing between graph nodes at run time: strings, integers,
`Resource` handles (a training node hands its resource to its children) and
otherwise opaque objects identified by an id. -/
inductive Val where
  | vstr : String → Val
  | vint : Int → Val
  | vres : Resource → Val
  | vobj : Nat → Val
deriving DecidableEq

/-- A run-time exception in the node-execution world: either an exception
raised by component/hook code (carrying its payload value) or a
`GraphComponentException` wrapping a message and the original cause.
Modelled from the spec: rasa/engine/exceptions.py is not in the sources. -/
inductive RunExc where
  | raised : Val → RunExc
  | keyError : String → RunExc
  | graphComponentException : String → RunExc → RunExc
deriving DecidableEq

/-- The component object a constructor call returns. Python object identity
is modelled by `id` (allocated from the node\'s counter); the remaining
fields record exactly the arguments the constructor received. -/
structure ComponentInstance where
  id : Nat
  config : List (String × Val)
  resource : Val
  ctorKwargs : List (String × Val)
deriving DecidableEq

/-- A `GraphComponent` subclass as the `GraphNode` uses it: its default
config, the parameter names its designated constructor accepts (Python
introspects the signature via `minimal_kwargs`), whether the constructor
raises on given arguments, and the behaviour of the designated run function. -/
structure ComponentClass where
  defaultConfig : List (String × Val)
  ctorParams : List String
  ctorRaises : List (String × Val) → Val → List (String × Val) → Option Val
  fnBehavior : Option ComponentInstance → List (String × Val) → Except Val Val

/-- `ExecutionContext` from rasa/engine/graph.py. -/
structure ExecutionContext where
  graph_schema : GraphSchema
  model_id : Option String := none
  should_add_diagnostic_data : Bool := false
  is_finetuning : Bool := false

/-- A `GraphNodeHook`: `on_before_node` receives (node name, context, config,
received inputs) and returns data later handed to `on_after_node`; either may
raise (modelled by the `Except` error). -/
structure Hook where
  onBefore : String → ExecutionContext → List (String × Val) → List (String × Val) → Except Val Val
  onAfter : String → ExecutionContext → List (String × Val) → Val → Val → Except Val Unit

/-- Python `{**defaults, **overrides}`: entries of the first dict in order,
overridden in place by the second, whose new keys are appended. -/
def pyMerge (a b : List (String × Val)) : List (String × Val) :=
  b.foldl (fun acc kv => setKey acc kv.1 kv.2) a

/-- `GraphNode` from rasa/engine/graph.py: the state of one executable node.
`component`/`nextId` model the mutable `self._component` and the identity of
freshly constructed component objects; `fnInvocations` records each call of
the designated run function (the component it ran on and the keyword
arguments it received). -/
structure GraphNode where
  node_name : String
  component_class : ComponentClass
  constructor_name : String
  fn_name : String
  component_config : List (String × Val)
  inputs : List (String × String)
  eager : Bool
  model_storage : Nat
  existing_resource : Option Resource
  execution_context : ExecutionContext
  hooks : List Hook
  component : Option ComponentInstance
  nextId : Nat
  fnInvocations : List (Option ComponentInstance × List (String × Val))

/-- `GraphNode._get_resource`: a `resource` among the constructor kwargs is
popped and wins; otherwise a statically configured resource; otherwise a
fresh `Resource` named after the node itself. Returns the chosen resource
and the kwargs as the pop leaves them. -/
def getResource (n : GraphNode) (kwargs : List (String × Val)) :
    Val × List (String × Val) :=
  match popKey kwargs "resource" with
  | (some v, rest) => (v, rest)
  | (none, _) =>
    match n.existing_resource with
    | some r => (Val.vres r, kwargs)
    | none => (Val.vres ⟨n.node_name⟩, kwargs)

/-- `GraphNode._load_component`: resolve the resource, call the constructor
with the merged config, the resource and the remaining kwargs; wrap any
exception it raises; on success store the fresh component instance. -/
def loadComponent (n : GraphNode) (kwargs : List (String × Val)) :
    Except RunExc GraphNode :=
  match n.component_class.ctorRaises n.component_config
        (getResource n kwargs).1 (getResource n kwargs).2 with
  | some e =>
    Except.error (RunExc.graphComponentException
      ("Error initializing graph component for node " ++ n.node_name ++ ".") (RunExc.raised e))
  | none =>
    Except.ok { n with
      component := some { id := n.nextId, config := n.component_config,
                          resource := (getResource n kwargs).1,
                          ctorKwargs := (getResource n kwargs).2 },
      nextId := n.nextId + 1 }

/-- `GraphNode.__init__`: stores the configuration (merging the class default
config under the node config) with no component instance yet, then
instantiates right away when `eager` is set. -/
def graphNodeInit (node_name : String) (component_class : ComponentClass)
    (constructor_name fn_name : String) (component_config : List (String × Val))
    (inputs : List (String × String)) (eager : Bool) (model_storage : Nat)
    (resource : Option Resource) (execution_context : ExecutionContext)
    (hooks : List Hook) : Except RunExc GraphNode :=
  let base : GraphNode :=
    { node_name := node_name, component_class := component_class,
      constructor_name := constructor_name, fn_name := fn_name,
      component_config := pyMerge component_class.defaultConfig component_config,
      inputs := inputs, eager := eager, model_storage := model_storage,
      existing_resource := resource, execution_context := execution_context,
      hooks := hooks, component := none, nextId := 0, fnInvocations := [] }
  if eager then loadComponent base [] else Except.ok base

/-- `dict(inputs_from_previous_nodes)`: later pairs override earlier ones. -/
def dictOfPairs (l : List (String × Val)) : List (String × Val) :=
  l.foldl (fun acc kv => setKey acc kv.1 kv.2) []

/-- The projection loop of `GraphNode.__call__`: for every entry
`input_name -> input_node` of `needs`, look the parent\'s output up by name;
a missing parent output raises `KeyError` (never a default). -/
def projectInputs : List (String × String) → List (String × Val) →
    Except RunExc (List (String × Val))
  | [], _ => Except.ok []
  | (iname, pnode) :: rest, received =>
    match dget received pnode with
    | none => Except.error (RunExc.keyError pnode)
    | some v => (projectInputs rest received).map (fun l => (iname, v) :: l)

/-- Modelled from the spec: `rasa.shared.utils.common.minimal_kwargs` (not in
the sources) keeps exactly the kwargs whose names match the constructor\'s
accepted parameters. -/
def minimalKwargs (kwargs : List (String × Val)) (params : List String) :
    List (String × Val) :=
  kwargs.filter (fun kv => memb kv.1 params)

/-- `GraphNode._run_before_hooks`: run every hook\'s `on_before_node` in
registration order, collecting the returned data; a raising hook aborts with
a wrapped error naming the node. -/
def runBeforeHooksGo (node_name : String) (ctx : ExecutionContext)
    (config : List (String × Val)) (kwargs : List (String × Val)) :
    List Hook → Except RunExc (List Val)
  | [] => Except.ok []
  | h :: hs =>
    match h.onBefore node_name ctx config kwargs with
    | Except.error e =>
      Except.error (RunExc.graphComponentException
        ("Error running before hook for node " ++ node_name ++ ".") (RunExc.raised e))
    | Except.ok d => (runBeforeHooksGo node_name ctx config kwargs hs).map (fun l => d :: l)

/-- `GraphNode._run_after_hooks`: run every hook\'s `on_after_node`, paired
with the data its before-hook returned; a raising hook aborts with a wrapped
error naming the node. -/
def runAfterHooksGo (node_name : String) (ctx : ExecutionContext)
    (config : List (String × Val)) (output : Val) :
    List (Hook × Val) → Except RunExc Unit
  | [] => Except.ok ()
  | (h, d) :: hs =>
    match h.onAfter node_name ctx config output d with
    | Except.error e =>
      Except.error (RunExc.graphComponentException
        ("Error running after hook for node " ++ node_name ++ ".") (RunExc.raised e))
    | Except.ok _ => runAfterHooksGo node_name ctx config output hs

/-- Lines 385–402 of `GraphNode.__call__`: project the received inputs via
`needs`, run the before hooks, and, when lazy, instantiate the component with
the constructor-matched subset of the kwargs, keeping the complement for the
run function (an eager node passes all projected kwargs to the run function).
Returns the node as left by instantiation, the before-hook data and the
kwargs for the run function. -/
def prepareRun (n : GraphNode) (ins : List (String × Val)) :
    Except RunExc (GraphNode × List Val × List (String × Val)) := do
  let kwargs ← projectInputs n.inputs (dictOfPairs ins)
  let hookData ← runBeforeHooksGo n.node_name n.execution_context n.component_config kwargs n.hooks
  if n.eager then
    pure (n, hookData, kwargs)
  else do
    let n' ← loadComponent n (minimalKwargs kwargs n.component_class.ctorParams)
    pure (n', hookData,
      kwargs.filter (fun kv =>
        (dget (minimalKwargs kwargs n.component_class.ctorParams) kv.1).isNone))

/-- `GraphNode.__call__`: after `prepareRun`, invoke the designated run
function on the (possibly just instantiated) component with the run kwargs,
wrapping any exception it raises into a node-naming error with the original
exception as cause; then run the after hooks and return the node\'s name with
its output. -/
def graphNodeCall (n : GraphNode) (ins : List (String × Val)) :
    Except RunExc (GraphNode × (String × Val)) := do
  let r ← prepareRun n ins
  let n' := r.1
  let n'' := { n' with fnInvocations := n'.fnInvocations ++ [(n'.component, r.2.2)] }
  match n''.component_class.fnBehavior n''.component r.2.2 with
  | Except.error e =>
    Except.error (RunExc.graphComponentException
      ("Error running graph component for node " ++ n.node_name ++ ".") (RunExc.raised e))
  | Except.ok output => do
    let _ ← runAfterHooksGo n.node_name n.execution_context n.component_config output
      (n.hooks.zip r.2.1)
    pure (n'', (n.node_name, output))

/-- Whether an `Except` result is a success. -/
def isOkE {ε α : Type} : Except ε α → Bool
  | Except.ok _ => true
  | Except.error _ => false

/-- The node dict as the `from_dict` loop leaves it: `uses` replaced in place
by the class object, a truthy `resource` replaced in place by the
reconstructed `Resource` object. -/
def mutatedNodeDict (n : SchemaNode) : SerDict :=
  [("needs", SerVal.dict (needsToSer n.needs)),
   ("uses", SerVal.cls n.uses),
   ("constructor_name", SerVal.str n.constructor_name),
   ("fn", SerVal.str n.fn),
   ("config", SerVal.dict (asdictEntries n.config)),
   ("eager", SerVal.boolv n.eager),
   ("is_target", SerVal.boolv n.is_target),
   ("is_input", SerVal.boolv n.is_input),
   ("resource", match n.resource with
     | some r => SerVal.res r
     | none => SerVal.nonev)]

/-- The node `from_dict` builds back from a node serialized by `as_dict`:
every field returns unchanged except `config`, which keeps the
`dataclasses.asdict` conversion applied to its values. -/
def roundTripNode (n : SchemaNode) : SchemaNode :=
  { n with config := asdictEntries n.config }

/-- A concrete importable environment: exactly the class `m.C` exists. -/
def envC : String → Option PyClass :=
  fun s => if s = "m.C" then some ⟨"m", "C"⟩ else none

/-- A node whose `config` holds a `Resource` value — a dataclass that
`dataclasses.asdict` flattens inside `config` and `from_dict` never restores. -/
def nodeCfgRes : SchemaNode :=
  { needs := [], uses := ⟨"m", "C"⟩, constructor_name := "create", fn := "run",
    config := [("r", SerVal.res ⟨"x"⟩)], eager := false, is_target := true,
    is_input := false, resource := none }

/-- The one-node schema around `nodeCfgRes`. -/
def gRes : GraphSchema := ⟨[("n", nodeCfgRes)]⟩

/-- What the round trip actually returns for `gRes`: the `Resource` inside
`config` has become its flattened field map. -/
def gResRT : GraphSchema :=
  ⟨[("n", { nodeCfgRes with
            config := [("r", SerVal.dict [("name", SerVal.str "x")])] })]⟩

/-- A two-node schema with JSON-safe configs, a static resource and a
dependency edge, for exercising the lossless round trip. -/
def nGood1 : SchemaNode :=
  { needs := [("x", "n2")], uses := ⟨"m", "C"⟩, constructor_name := "load",
    fn := "run", config := [("a", SerVal.intv 1), ("b", SerVal.str "s")],
    eager := true, is_target := true, is_input := false, resource := some ⟨"res1"⟩ }

/-- The second, dependency-free node of the round-trip witness schema. -/
def nGood2 : SchemaNode :=
  { needs := [], uses := ⟨"m", "C"⟩, constructor_name := "create", fn := "run",
    config := [], eager := false, is_target := false, is_input := true,
    resource := none }

/-- The round-trip witness schema. -/
def gGood : GraphSchema := ⟨[("n1", nGood1), ("n2", nGood2)]⟩

/-- A schema node literal with given needs and target flag (shared shape for
the minimal-graph-schema examples). -/
def mkN (needs : List (String × String)) (tgt : Bool) : SchemaNode :=
  { needs := needs, uses := ⟨"m", "C"⟩, constructor_name := "create",
    fn := "run", config := [], eager := false, is_target := tgt,
    is_input := false, resource := none }

/-- Diamond dependency (T needs A and B, both need C) plus a dead node D. -/
def gDiamond : GraphSchema :=
  ⟨[("T", mkN [("a", "A"), ("b", "B")] true), ("A", mkN [("c", "C")] false),
    ("B", mkN [("c", "C")] false), ("C", mkN [] false), ("D", mkN [] false)]⟩

/-- A rank function decreasing along the needs edges of `gDiamond`. -/
def rankDiamond : String → Nat :=
  fun s => if s = "C" then 0 else if s = "A" then 1 else if s = "B" then 1
           else if s = "T" then 2 else 3

/-- A serialized node dict lacking the `resource` key entirely. -/
def snodeNoRes : SerDict :=
  [("needs", SerVal.dict []), ("uses", SerVal.str "m.C"),
   ("constructor_name", SerVal.str "create"), ("fn", SerVal.str "run"),
   ("config", SerVal.dict []), ("eager", SerVal.boolv false),
   ("is_target", SerVal.boolv false), ("is_input", SerVal.boolv false)]

/-- A serialized node dict whose `uses` path is not importable. -/
def snodeBadUses : SerDict :=
  setKey snodeNoRes "uses" (SerVal.str "not.a.real.module.Foo")
    ++ [("resource", SerVal.nonev)]

/-- An empty execution context for concrete nodes. -/
def ctx0 : ExecutionContext := { graph_schema := ⟨[]⟩ }

/-- A concrete component class: the constructor accepts parameters `x` and
`resource` and never raises; the run function reports how many kwargs it
received. -/
def clsL : ComponentClass :=
  { defaultConfig := [("d", Val.vint 7)], ctorParams := ["x", "resource"],
    ctorRaises := fun _ _ _ => none,
    fnBehavior := fun _ kw => Except.ok (Val.vint kw.length) }

/-- A lazy concrete `GraphNode` over `clsL` with no parents (exactly the
state `graphNodeInit` produces for it). -/
def lz0 : GraphNode :=
  { node_name := "nL", component_class := clsL, constructor_name := "create",
    fn_name := "run", component_config := pyMerge clsL.defaultConfig [],
    inputs := [], eager := false, model_storage := 0, existing_resource := none,
    execution_context := ctx0, hooks := [], component := none, nextId := 0,
    fnInvocations := [] }

/-- `lz0` after its first invocation. -/
def lz1 : GraphNode :=
  match graphNodeCall lz0 [] with
  | Except.ok p => p.1
  | Except.error _ => lz0

/-- `lz0` after its second invocation. -/
def lz2 : GraphNode :=
  match graphNodeCall lz1 [] with
  | Except.ok p => p.1
  | Except.error _ => lz1

/-- A component class whose run function always raises `ValueError("boom")`
(modelled as a raised string payload). -/
def clsBoom : ComponentClass :=
  { defaultConfig := [], ctorParams := [], ctorRaises := fun _ _ _ => none,
    fnBehavior := fun _ _ => Except.error (Val.vstr "boom") }

/-- An eager node over `clsBoom` in its post-construction state. -/
def egBoom : GraphNode :=
  { node_name := "nE", component_class := clsBoom, constructor_name := "create",
    fn_name := "run", component_config := pyMerge clsBoom.defaultConfig [],
    inputs := [], eager := true, model_storage := 0, existing_resource := none,
    execution_context := ctx0, hooks := [],
    component := some { id := 0, config := pyMerge clsBoom.defaultConfig [],
                        resource := Val.vres ⟨"nE"⟩, ctorKwargs := [] },
    nextId := 1, fnInvocations := [] }

/-- An eager node over `clsL` in its post-construction state. -/
def egOk : GraphNode :=
  { node_name := "nG", component_class := clsL, constructor_name := "create",
    fn_name := "run", component_config := pyMerge clsL.defaultConfig [],
    inputs := [], eager := true, model_storage := 0, existing_resource := none,
    execution_context := ctx0, hooks := [],
    component := some { id := 0, config := pyMerge clsL.defaultConfig [],
                        resource := Val.vres ⟨"nG"⟩, ctorKwargs := [] },
    nextId := 1, fnInvocations := [] }

/-- The result of invoking `egOk` once. -/
def egOkCallRes : GraphNode × (String × Val) :=
  ({ egOk with fnInvocations := [(egOk.component, [])] }, ("nG", Val.vint 0))

/-- The result of invoking `lz0` once. -/
def lzCallRes : GraphNode × (String × Val) := (lz1, ("nL", Val.vint 0))

/-- A lazy node with three parents, one of which supplies a resource. -/
def lzW : GraphNode :=
  { node_name := "nW", component_class := clsL, constructor_name := "create",
    fn_name := "run", component_config := pyMerge clsL.defaultConfig [],
    inputs := [("x", "P"), ("y", "Q"), ("resource", "R")], eager := false,
    model_storage := 0, existing_resource := none, execution_context := ctx0,
    hooks := [], component := none, nextId := 0, fnInvocations := [] }

/-- Parent outputs for `lzW`. -/
def insW : List (String × Val) :=
  [("P", Val.vint 5), ("Q", Val.vstr "q"), ("R", Val.vres ⟨"rp"⟩)]

/-- The kwargs `lzW` projects from `insW`. -/
def kwargsW : List (String × Val) :=
  [("x", Val.vint 5), ("y", Val.vstr "q"), ("resource", Val.vres ⟨"rp"⟩)]

/-- `lzW` after instantiation during its first call on `insW`. -/
def lzWLoaded : GraphNode :=
  { lzW with
    component := some { id := 0, config := pyMerge clsL.defaultConfig [],
                        resource := Val.vres ⟨"rp"⟩,
                        ctorKwargs := [("x", Val.vint 5)] },
    nextId := 1 }

/-- What `prepareRun` returns for `lzW` on `insW`. -/
def rW : GraphNode × List Val × List (String × Val) :=
  (lzWLoaded, [], [("y", Val.vstr "q")])

/-- A lazy node with both a statically configured resource and a parent that
supplies one at call time. -/
def nRes : GraphNode :=
  { node_name := "nR", component_class := clsL, constructor_name := "load",
    fn_name := "run", component_config := pyMerge clsL.defaultConfig [],
    inputs := [], eager := false, model_storage := 0,
    existing_resource := some ⟨"static"⟩, execution_context := ctx0,
    hooks := [], component := none, nextId := 0, fnInvocations := [] }

/-- `nRes` after instantiating with a runtime-supplied resource kwarg. -/
def nResLoaded : GraphNode :=
  { nRes with
    component := some { id := 0, config := pyMerge clsL.defaultConfig [],
                        resource := Val.vres ⟨"fromParent"⟩, ctorKwargs := [] },
    nextId := 1 }

theorem memb_iff_mem (s : String) (l : List String) : memb s l = true ↔ s ∈ l := by
  induction l with
  | nil => simp [memb]
  | cons x xs ih =>
    simp only [memb, List.mem_cons]
    by_cases h : x = s
    · simp [h]
    · simp [h, ih, Ne.symm h]

theorem dget_setKey_ne {α : Type} (l : List (String × α)) (k k' : String) (v : α)
    (h : ¬k = k') : dget (setKey l k v) k' = dget l k' := by
  induction l with
  | nil => simp [setKey, dget, h]
  | cons p rest ih =>
    by_cases hp : p.1 = k
    · simp [setKey, hp, dget, h, fun hh => h (hp ▸ hh)]
    · simp only [setKey, hp, if_neg]
      by_cases hq : p.1 = k'
      · simp [dget, hq]
      · simp [dget, hq, ih]

theorem popKey_fst {α : Type} (l : List (String × α)) (k : String) :
    (popKey l k).1 = dget l k := by
  induction l with
  | nil => simp [popKey, dget]
  | cons p rest ih =>
    by_cases hp : p.1 = k
    · simp [popKey, dget, hp]
    · simp [popKey, dget, hp, ih]

theorem popKey_snd_of_none {α : Type} (l : List (String × α)) (k : String)
    (h : dget l k = none) : (popKey l k).2 = l := by
  induction l with
  | nil => simp [popKey]
  | cons p rest ih =>
    by_cases hp : p.1 = k
    · simp [dget, hp] at h
    · simp [dget, hp] at h
      simp [popKey, hp, ih h]

theorem getResource_fst_runtime (n : GraphNode) (kw : List (String × Val)) (v : Val)
    (h : dget kw "resource" = some v) : (getResource n kw).1 = v := by
  have h1 := popKey_fst kw "resource"
  cases hp : popKey kw "resource" with
  | mk o rest =>
    rw [hp] at h1
    simp only at h1
    rw [h1, h] at hp
    simp [getResource, hp]

theorem getResource_fst_static (n : GraphNode) (kw : List (String × Val)) (r : Resource)
    (h : dget kw "resource" = none) (he : n.existing_resource = some r) :
    (getResource n kw).1 = Val.vres r := by
  have h1 := popKey_fst kw "resource"
  cases hp : popKey kw "resource" with
  | mk o rest =>
    rw [hp] at h1
    simp only at h1
    rw [h1, h] at hp
    simp [getResource, hp, he]

theorem getResource_fst_fresh (n : GraphNode) (kw : List (String × Val))
    (h : dget kw "resource" = none) (he : n.existing_resource = none) :
    (getResource n kw).1 = Val.vres ⟨n.node_name⟩ := by
  have h1 := popKey_fst kw "resource"
  cases hp : popKey kw "resource" with
  | mk o rest =>
    rw [hp] at h1
    simp only at h1
    rw [h1, h] at hp
    simp [getResource, hp, he]

theorem getResource_snd (n : GraphNode) (kw : List (String × Val)) :
    (getResource n kw).2 = (popKey kw "resource").2 := by
  have h1 := popKey_fst kw "resource"
  cases hp : popKey kw "resource" with
  | mk o rest =>
    rw [hp] at h1
    simp only at h1
    cases o with
    | some v => simp [getResource, hp]
    | none =>
      have h2 := popKey_snd_of_none kw "resource" h1.symm
      rw [hp] at h2
      simp only at h2
      cases he : n.existing_resource <;> simp [getResource, hp, he, h2]

theorem loadComponent_ok (n : GraphNode) (kwargs : List (String × Val)) (n' : GraphNode)
    (h : loadComponent n kwargs = Except.ok n') :
    n' = { n with
      component := some { id := n.nextId, config := n.component_config,
                          resource := (getResource n kwargs).1,
                          ctorKwargs := (getResource n kwargs).2 },
      nextId := n.nextId + 1 } := by
  unfold loadComponent at h
  cases hcr : n.component_class.ctorRaises n.component_config
      (getResource n kwargs).1 (getResource n kwargs).2 with
  | some e => rw [hcr] at h; exact Except.noConfusion h
  | none => rw [hcr] at h; injection h with h1; exact h1.symm

theorem prepareRun_ok_cases (n : GraphNode) (ins : List (String × Val))
    (r : GraphNode × List Val × List (String × Val))
    (h : prepareRun n ins = Except.ok r) :
    ∃ kwargs hookData,
      projectInputs n.inputs (dictOfPairs ins) = Except.ok kwargs ∧
      runBeforeHooksGo n.node_name n.execution_context n.component_config kwargs n.hooks
        = Except.ok hookData ∧
      ((n.eager = true ∧ r = (n, hookData, kwargs)) ∨
       (n.eager = false ∧
        ∃ n', loadComponent n (minimalKwargs kwargs n.component_class.ctorParams)
                = Except.ok n' ∧
          r = (n', hookData,
               kwargs.filter (fun kv =>
                 (dget (minimalKwargs kwargs n.component_class.ctorParams) kv.1).isNone)))) := by
  unfold prepareRun at h
  cases hp : projectInputs n.inputs (dictOfPairs ins) with
  | error e => rw [hp] at h; exact Except.noConfusion h
  | ok kwargs =>
    rw [hp] at h
    simp only [bind, Except.bind] at h
    cases hb : runBeforeHooksGo n.node_name n.execution_context n.component_config
        kwargs n.hooks with
    | error e => rw [hb] at h; exact Except.noConfusion h
    | ok hookData =>
      rw [hb] at h
      simp only [bind, Except.bind] at h
      refine ⟨kwargs, hookData, rfl, hb, ?_⟩
      cases he : n.eager with
      | true =>
        rw [he] at h
        simp only [if_true] at h
        injection h with h1
        exact Or.inl ⟨rfl, h1.symm⟩
      | false =>
        rw [he] at h
        simp only [Bool.false_eq_true, if_false] at h
        cases hl : loadComponent n (minimalKwargs kwargs n.component_class.ctorParams) with
        | error e => rw [hl] at h; exact Except.noConfusion h
        | ok n' =>
          rw [hl] at h
          simp only [bind, Except.bind] at h
          injection h with h1
          exact Or.inr ⟨rfl, n', rfl, h1.symm⟩

theorem graphNodeCall_ok_cases (n : GraphNode) (ins : List (String × Val))
    (p : GraphNode × (String × Val)) (h : graphNodeCall n ins = Except.ok p) :
    ∃ r output,
      prepareRun n ins = Except.ok r ∧
      r.1.component_class.fnBehavior r.1.component r.2.2 = Except.ok output ∧
      p = ({ r.1 with fnInvocations := r.1.fnInvocations ++ [(r.1.component, r.2.2)] },
           (n.node_name, output)) := by
  unfold graphNodeCall at h
  cases hp : prepareRun n ins with
  | error e => rw [hp] at h; exact Except.noConfusion h
  | ok r =>
    rw [hp] at h
    simp only [bind, Except.bind] at h
    cases hf : r.1.component_class.fnBehavior r.1.component r.2.2 with
    | error e =>
      rw [hf] at h
      exact Except.noConfusion h
    | ok output =>
      rw [hf] at h
      simp only at h
      cases ha : runAfterHooksGo n.node_name n.execution_context n.component_config output
          (n.hooks.zip r.2.1) with
      | error e => rw [ha] at h; exact Except.noConfusion h
      | ok u =>
        rw [ha] at h
        simp only [bind, Except.bind] at h
        injection h with h1
        exact ⟨r, output, rfl, hf, h1.symm⟩

/-- Claim C6: when a `GraphNode` instantiates its component, the resource
passed to the constructor follows the precedence: a runtime-supplied
`resource` kwarg wins over the statically configured resource, which wins
over a freshly synthesized `Resource` named after the node itself. -/
theorem c6_resource_precedence (n : GraphNode) (kwargs : List (String × Val))
    (n' : GraphNode) (h : loadComponent n kwargs = Except.ok n') :
    ∃ inst, n'.component = some inst ∧
      (∀ v, dget kwargs "resource" = some v → inst.resource = v) ∧
      (dget kwargs "resource" = none → ∀ r, n.existing_resource = some r →
        inst.resource = Val.vres r) ∧
      (dget kwargs "resource" = none → n.existing_resource = none →
        inst.resource = Val.vres ⟨n.node_name⟩) := by
  have hn := loadComponent_ok n kwargs n' h
  subst hn
  refine ⟨_, rfl, ?_, ?_, ?_⟩
  · intro v hv
    exact getResource_fst_runtime n kwargs v hv
  · intro hnone r hr
    exact getResource_fst_static n kwargs r hnone hr
  · intro hnone he
    exact getResource_fst_fresh n kwargs hnone he

/-- Claim C7: if the designated run function raises an exception, the node
call raises a `GraphComponentException` whose message names the failing node
and whose cause is the original exception, unmodified. -/
theorem c7_execution_error (n : GraphNode) (ins : List (String × Val))
    (r : GraphNode × List Val × List (String × Val)) (e : Val)
    (hprep : prepareRun n ins = Except.ok r)
    (hfn : r.1.component_class.fnBehavior r.1.component r.2.2 = Except.error e) :
    graphNodeCall n ins = Except.error
      (RunExc.graphComponentException
        ("Error running graph component for node " ++ n.node_name ++ ".")
        (RunExc.raised e)) := by
  unfold graphNodeCall
  rw [hprep]
  simp only [bind, Except.bind]
  rw [hfn]

/-- Claim C3 fails on the code: a lazy node re-instantiates its component on
every invocation (`__call__` reloads whenever `eager` is false, without
checking whether a component already exists). Calling the concrete lazy node
`lz0` twice constructs two distinct component instances: the claimed
"instantiated exactly once … persists with no re-instantiation across
repeated invocations" is false at this input. -/
theorem c3_counterexample :
    graphNodeInit "nL" clsL "create" "run" [] [] false 0 none ctx0 []
      = Except.ok lz0 ∧
    lz0.component = none ∧
    isOkE (graphNodeCall lz0 []) = true ∧
    isOkE (graphNodeCall lz1 []) = true ∧
    lz1.nextId = 1 ∧ lz1.component.map ComponentInstance.id = some 0 ∧
    lz2.nextId = 2 ∧ lz2.component.map ComponentInstance.id = some 1 ∧
    lz2.component ≠ lz1.component :=
  ⟨rfl, rfl, rfl, rfl, rfl, rfl, rfl, rfl, by decide⟩

/-- Claim C3 amended: an eager node is instantiated exactly once, at
construction and before any invocation, and is never re-instantiated by a
call; a lazy node is not instantiated until its first call, but every
invocation constructs a fresh component instance (so the instance is created
exactly once only when the node is invoked exactly once, as the runner does
within one run). -/
theorem c3_instantiation_amended :
    (∀ nm cls cn fnn cfg ins st res ctx hooks n,
       graphNodeInit nm cls cn fnn cfg ins true st res ctx hooks = Except.ok n →
       n.nextId = 1 ∧ n.component.isSome = true) ∧
    (∀ nm cls cn fnn cfg ins st res ctx hooks n,
       graphNodeInit nm cls cn fnn cfg ins false st res ctx hooks = Except.ok n →
       n.nextId = 0 ∧ n.component = none) ∧
    (∀ (n : GraphNode) ins p, n.eager = true →
       graphNodeCall n ins = Except.ok p →
       p.1.component = n.component ∧ p.1.nextId = n.nextId) ∧
    (∀ (n : GraphNode) ins p, n.eager = false →
       graphNodeCall n ins = Except.ok p →
       p.1.nextId = n.nextId + 1 ∧
       p.1.component.map ComponentInstance.id = some n.nextId) := by
  refine ⟨?_, ?_, ?_, ?_⟩
  · intro nm cls cn fnn cfg ins st res ctx hooks n h
    unfold graphNodeInit at h
    simp only [if_true] at h
    have := loadComponent_ok _ _ _ h
    subst this
    exact ⟨rfl, rfl⟩
  · intro nm cls cn fnn cfg ins st res ctx hooks n h
    unfold graphNodeInit at h
    simp only [Bool.false_eq_true, if_false] at h
    injection h with h1
    subst h1
    exact ⟨rfl, rfl⟩
  · intro n ins p he h
    obtain ⟨r, output, hprep, hfn, hp⟩ := graphNodeCall_ok_cases n ins p h
    obtain ⟨kwargs, hookData, _, _, hcase⟩ := prepareRun_ok_cases n ins r hprep
    rcases hcase with ⟨_, hr⟩ | ⟨hef, _⟩
    · subst hr; subst hp; exact ⟨rfl, rfl⟩
    · rw [he] at hef; exact Bool.noConfusion hef
  · intro n ins p he h
    obtain ⟨r, output, hprep, hfn, hp⟩ := graphNodeCall_ok_cases n ins p h
    obtain ⟨kwargs, hookData, _, _, hcase⟩ := prepareRun_ok_cases n ins r hprep
    rcases hcase with ⟨het, _⟩ | ⟨_, n', hl, hr⟩
    · rw [he] at het; exact Bool.noConfusion het
    · have hn' := loadComponent_ok _ _ _ hl
      subst hn'
      subst hr
      subst hp
      exact ⟨rfl, rfl⟩

/-- Claim C4: on a lazy invocation the constructor consumes exactly the
subset of the projected inputs whose names match its accepted parameters
(with a `resource` entry delivered through the resource argument), and the
run function is invoked with exactly the complement of that subset; on an
eager invocation the run function receives all projected inputs. -/
theorem c4_kwargs_split (n : GraphNode) (ins : List (String × Val))
    (kwargs : List (String × Val)) (r : GraphNode × List Val × List (String × Val))
    (hproj : projectInputs n.inputs (dictOfPairs ins) = Except.ok kwargs)
    (hprep : prepareRun n ins = Except.ok r) :
    (n.eager = false →
      r.2.2 = kwargs.filter (fun kv =>
        (dget (minimalKwargs kwargs n.component_class.ctorParams) kv.1).isNone) ∧
      ∃ inst, r.1.component = some inst ∧
        inst.ctorKwargs
          = (popKey (minimalKwargs kwargs n.component_class.ctorParams) "resource").2 ∧
        (∀ v, dget (minimalKwargs kwargs n.component_class.ctorParams) "resource" = some v →
          inst.resource = v)) ∧
    (n.eager = true → r.2.2 = kwargs ∧ r.1 = n) ∧
    (∀ p, graphNodeCall n ins = Except.ok p →
      p.1.fnInvocations = r.1.fnInvocations ++ [(r.1.component, r.2.2)]) := by
  obtain ⟨kwargs', hookData, hp', hb, hcase⟩ := prepareRun_ok_cases n ins r hprep
  rw [hproj] at hp'
  injection hp' with hkw
  subst hkw
  refine ⟨?_, ?_, ?_⟩
  · intro he
    rcases hcase with ⟨het, _⟩ | ⟨_, n', hl, hr⟩
    · rw [he] at het; exact Bool.noConfusion het
    · have hn' := loadComponent_ok _ _ _ hl
      subst hn'
      subst hr
      refine ⟨rfl, _, rfl, ?_, ?_⟩
      · exact getResource_snd n (minimalKwargs kwargs n.component_class.ctorParams)
      · intro v hv
        exact getResource_fst_runtime n _ v hv
  · intro he
    rcases hcase with ⟨_, hr⟩ | ⟨hef, _⟩
    · subst hr; exact ⟨rfl, rfl⟩
    · rw [he] at hef; exact Bool.noConfusion hef
  · intro p hcall
    obtain ⟨r', output, hprep', hfn, hp⟩ := graphNodeCall_ok_cases n ins p hcall
    rw [hprep] at hprep'
    injection hprep' with hr'
    subst hr'
    subst hp
    rfl

theorem projectInputs_ok_names (needs : List (String × String))
    (received kwargs : List (String × Val))
    (h : projectInputs needs received = Except.ok kwargs) :
    kwargs.map Prod.fst = needs.map Prod.fst := by
  induction needs generalizing kwargs with
  | nil =>
    simp only [projectInputs] at h
    injection h with h1
    subst h1
    rfl
  | cons q rest ih =>
    obtain ⟨iname, pnode⟩ := q
    simp only [projectInputs] at h
    cases hd : dget received pnode with
    | none => rw [hd] at h; exact Except.noConfusion h
    | some v =>
      rw [hd] at h
      cases hr : projectInputs rest received with
      | error e => rw [hr] at h; exact Except.noConfusion h
      | ok l =>
        rw [hr] at h
        simp only [Except.map] at h
        injection h with h1
        subst h1
        simp [ih l hr]

theorem projectInputs_ok_value (needs : List (String × String))
    (received kwargs : List (String × Val))
    (hnodup : (needs.map Prod.fst).Nodup)
    (h : projectInputs needs received = Except.ok kwargs)
    (ln pn : String) (hmem : (ln, pn) ∈ needs) :
    ∃ v, dget received pn = some v ∧ dget kwargs ln = some v := by
  induction needs generalizing kwargs with
  | nil => exact absurd hmem (List.not_mem_nil _)
  | cons q rest ih =>
    obtain ⟨iname, pnode⟩ := q
    simp only [projectInputs] at h
    cases hd : dget received pnode with
    | none => rw [hd] at h; exact Except.noConfusion h
    | some v =>
      rw [hd] at h
      cases hr : projectInputs rest received with
      | error e => rw [hr] at h; exact Except.noConfusion h
      | ok l =>
        rw [hr] at h
        simp only [Except.map] at h
        injection h with h1
        subst h1
        rcases List.mem_cons.mp hmem with heq | hmem'
        · injection heq with h2 h3
          subst h2; subst h3
          exact ⟨v, hd, by simp [dget]⟩
        · have hne : iname ≠ ln := by
            intro hc
            subst hc
            have : iname ∈ rest.map Prod.fst :=
              List.mem_map.mpr ⟨(iname, pn), hmem', rfl⟩
            exact (List.nodup_cons.mp hnodup).1 this
          obtain ⟨w, hw1, hw2⟩ :=
            ih l (List.nodup_cons.mp hnodup).2 hr hmem'
          exact ⟨w, hw1, by simp [dget, hne, hw2]⟩

theorem projectInputs_missing (needs : List (String × String))
    (received : List (String × Val))
    (hmiss : ∃ p, p ∈ needs.map Prod.snd ∧ dget received p = none) :
    ∃ p, projectInputs needs received = Except.error (RunExc.keyError p) ∧
      dget received p = none := by
  induction needs with
  | nil =>
    obtain ⟨p, hp, _⟩ := hmiss
    exact absurd hp (List.not_mem_nil _)
  | cons q rest ih =>
    obtain ⟨iname, pnode⟩ := q
    cases hd : dget received pnode with
    | none => exact ⟨pnode, by simp [projectInputs, hd], hd⟩
    | some v =>
      obtain ⟨p, hp, hpnone⟩ := hmiss
      rcases List.mem_cons.mp hp with heq | hp'
      · simp only at heq
        subst heq
        rw [hd] at hpnone
        exact Option.noConfusion hpnone
      · obtain ⟨p', hq1, hq2⟩ := ih ⟨p, hp', hpnone⟩
        exact ⟨p', by simp [projectInputs, hd, hq1, Except.map], hq2⟩

theorem graphNodeCall_proj_error (n : GraphNode) (ins : List (String × Val))
    (err : RunExc)
    (h : projectInputs n.inputs (dictOfPairs ins) = Except.error err) :
    graphNodeCall n ins = Except.error err := by
  unfold graphNodeCall prepareRun
  rw [h]
  rfl

/-- Claim C5: the received (parent name, output) pairs are projected into
keyword arguments strictly by name via the `needs` mapping — each local name
is bound to the output of the parent it names, the projected kwargs carry
exactly the declared local names, a missing required parent output raises a
`KeyError` naming the parent, and such an error propagates out of the node
call unhandled rather than being defaulted. -/
theorem c5_projection_by_name :
    (∀ (needs : List (String × String)) (received kwargs : List (String × Val)),
       (needs.map Prod.fst).Nodup →
       projectInputs needs received = Except.ok kwargs →
       kwargs.map Prod.fst = needs.map Prod.fst ∧
       ∀ ln pn, (ln, pn) ∈ needs →
         ∃ v, dget received pn = some v ∧ dget kwargs ln = some v) ∧
    (∀ (needs : List (String × String)) (received : List (String × Val)),
       (∃ p, p ∈ needs.map Prod.snd ∧ dget received p = none) →
       ∃ p, projectInputs needs received = Except.error (RunExc.keyError p) ∧
         dget received p = none) ∧
    (∀ (n : GraphNode) (ins : List (String × Val)) err,
       projectInputs n.inputs (dictOfPairs ins) = Except.error err →
       graphNodeCall n ins = Except.error err) := by
  refine ⟨?_, projectInputs_missing, graphNodeCall_proj_error⟩
  intro needs received kwargs hnodup h
  exact ⟨projectInputs_ok_names needs received kwargs h,
         fun ln pn hmem => projectInputs_ok_value needs received kwargs hnodup h ln pn hmem⟩

theorem c3_instantiation_amended_witness :
    (graphNodeInit "nG" clsL "create" "run" [] [] true 0 none ctx0 []
       = Except.ok egOk ∧
     (egOk.nextId = 1 ∧ egOk.component.isSome = true)) ∧
    (graphNodeInit "nL" clsL "create" "run" [] [] false 0 none ctx0 []
       = Except.ok lz0 ∧
     (lz0.nextId = 0 ∧ lz0.component = none)) ∧
    (egOk.eager = true ∧ graphNodeCall egOk [] = Except.ok egOkCallRes ∧
     (egOkCallRes.1.component = egOk.component ∧ egOkCallRes.1.nextId = egOk.nextId)) ∧
    (lz0.eager = false ∧ graphNodeCall lz0 [] = Except.ok lzCallRes ∧
     (lzCallRes.1.nextId = lz0.nextId + 1 ∧
      lzCallRes.1.component.map ComponentInstance.id = some lz0.nextId)) :=
  ⟨⟨rfl, c3_instantiation_amended.1 "nG" clsL "create" "run" [] [] 0 none ctx0 [] egOk rfl⟩,
   ⟨rfl, c3_instantiation_amended.2.1 "nL" clsL "create" "run" [] [] 0 none ctx0 [] lz0 rfl⟩,
   ⟨rfl, rfl, c3_instantiation_amended.2.2.1 egOk [] egOkCallRes rfl rfl⟩,
   ⟨rfl, rfl, c3_instantiation_amended.2.2.2 lz0 [] lzCallRes rfl rfl⟩⟩

theorem c4_kwargs_split_witness :
    projectInputs lzW.inputs (dictOfPairs insW) = Except.ok kwargsW ∧
    prepareRun lzW insW = Except.ok rW ∧
    ((lzW.eager = false →
      rW.2.2 = kwargsW.filter (fun kv =>
        (dget (minimalKwargs kwargsW lzW.component_class.ctorParams) kv.1).isNone) ∧
      ∃ inst, rW.1.component = some inst ∧
        inst.ctorKwargs
          = (popKey (minimalKwargs kwargsW lzW.component_class.ctorParams) "resource").2 ∧
        (∀ v, dget (minimalKwargs kwargsW lzW.component_class.ctorParams) "resource" = some v →
          inst.resource = v)) ∧
     (lzW.eager = true → rW.2.2 = kwargsW ∧ rW.1 = lzW) ∧
     (∀ p, graphNodeCall lzW insW = Except.ok p →
       p.1.fnInvocations = rW.1.fnInvocations ++ [(rW.1.component, rW.2.2)])) :=
  ⟨rfl, rfl, c4_kwargs_split lzW insW kwargsW rW rfl rfl⟩

theorem c5_projection_by_name_witness :
    ((([("x", "parent")] : List (String × String)).map Prod.fst).Nodup ∧
     projectInputs [("x", "parent")] [("parent", Val.vint 5)]
       = Except.ok [("x", Val.vint 5)] ∧
     (([("x", Val.vint 5)] : List (String × Val)).map Prod.fst
        = ([("x", "parent")] : List (String × String)).map Prod.fst ∧
      ∀ ln pn, (ln, pn) ∈ ([("x", "parent")] : List (String × String)) →
        ∃ v, dget [("parent", Val.vint 5)] pn = some v ∧
          dget [("x", Val.vint 5)] ln = some v)) ∧
    (∃ p, projectInputs [("x", "parent")] ([] : List (String × Val))
        = Except.error (RunExc.keyError p) ∧
      dget ([] : List (String × Val)) p = none) ∧
    graphNodeCall lzW [("Q", Val.vstr "q")] = Except.error (RunExc.keyError "P") :=
  ⟨⟨by decide, rfl,
    c5_projection_by_name.1 [("x", "parent")] [("parent", Val.vint 5)]
      [("x", Val.vint 5)] (by decide) rfl⟩,
   c5_projection_by_name.2.1 [("x", "parent")] [] ⟨"parent", by decide, rfl⟩,
   c5_projection_by_name.2.2 lzW [("Q", Val.vstr "q")] (RunExc.keyError "P") rfl⟩

theorem c6_resource_precedence_witness :
    loadComponent nRes [("resource", Val.vres ⟨"fromParent"⟩)] = Except.ok nResLoaded ∧
    ∃ inst, nResLoaded.component = some inst ∧
      (∀ v, dget [("resource", Val.vres ⟨"fromParent"⟩)] "resource" = some v →
        inst.resource = v) ∧
      (dget [("resource", Val.vres ⟨"fromParent"⟩)] "resource" = none →
        ∀ r, nRes.existing_resource = some r → inst.resource = Val.vres r) ∧
      (dget [("resource", Val.vres ⟨"fromParent"⟩)] "resource" = none →
        nRes.existing_resource = none → inst.resource = Val.vres ⟨nRes.node_name⟩) :=
  ⟨rfl, c6_resource_precedence nRes [("resource", Val.vres ⟨"fromParent"⟩)] nResLoaded rfl⟩

theorem c7_execution_error_witness :
    prepareRun egBoom [] = Except.ok (egBoom, [], []) ∧
    graphNodeCall egBoom [] = Except.error
      (RunExc.graphComponentException "Error running graph component for node nE."
        (RunExc.raised (Val.vstr "boom"))) :=
  ⟨rfl, c7_execution_error egBoom [] (egBoom, [], []) (Val.vstr "boom") rfl rfl⟩

theorem isOkE_true {ε α : Type} (e : Except ε α) (h : isOkE e = true) :
    ∃ a, e = Except.ok a := by
  cases e with
  | ok a => exact ⟨a, rfl⟩
  | error err => exact Bool.noConfusion h

theorem tryBlock_missing_resource (env : String → Option PyClass) (snode : SerDict)
    (path : String) (c : PyClass)
    (huses : dget snode "uses" = some (SerVal.str path))
    (henv : env path = some c)
    (hmiss : dget snode "resource" = none) :
    tryBlock env snode = Except.error (PyExc.keyError "resource") := by
  unfold tryBlock
  simp only [getKey, huses, classFromModulePath, henv, bind, Except.bind]
  rw [dget_setKey_ne snode "uses" "resource" (SerVal.cls c) (by decide), hmiss]

/-- Claim C10: `from_dict` requires every serialized node to carry a
`resource` key: on a node dict lacking it (while `uses` resolves fine), the
lookup raises a plain `KeyError` that is neither caught nor wrapped into the
schema-deserialization error, aborting the whole call. -/
theorem c10_missing_resource_keyerror (env : String → Option PyClass)
    (name : String) (snode : SerDict) (rest : List (String × SerDict))
    (path : String) (c : PyClass)
    (huses : dget snode "uses" = some (SerVal.str path))
    (henv : env path = some c)
    (hmiss : dget snode "resource" = none) :
    fromDict env ((name, snode) :: rest) = Except.error (PyExc.keyError "resource") := by
  unfold fromDict fromDictGo processNode
  rw [tryBlock_missing_resource env snode path c huses henv hmiss]
  rfl

theorem c10_missing_resource_keyerror_witness :
    dget snodeNoRes "uses" = some (SerVal.str "m.C") ∧
    envC "m.C" = some ⟨"m", "C"⟩ ∧
    dget snodeNoRes "resource" = none ∧
    fromDict envC [("n", snodeNoRes)] = Except.error (PyExc.keyError "resource") :=
  ⟨rfl, rfl, rfl,
   c10_missing_resource_keyerror envC "n" snodeNoRes [] "m.C" ⟨"m", "C"⟩ rfl rfl rfl⟩

theorem tryBlock_import_error (env : String → Option PyClass) (snode : SerDict)
    (path : String)
    (huses : dget snode "uses" = some (SerVal.str path))
    (henv : env path = none) :
    tryBlock env snode = Except.error (PyExc.importError path) := by
  unfold tryBlock
  simp only [getKey, huses, classFromModulePath, henv, bind, Except.bind]

/-- Claim C8: a serialized schema containing a node whose `uses` path cannot
be imported makes `from_dict` fail immediately — once every earlier node
deserializes fine — with a `GraphSchemaException` whose message names the
unresolvable dotted path and whose cause is the original `ImportError`; no
partial schema is returned. -/
theorem c8_import_error (env : String → Option PyClass)
    (d1 : List (String × SerDict)) (name : String) (snode : SerDict)
    (rest : List (String × SerDict)) (path : String)
    (hok : ∀ x ∈ d1, isOkE (processNode env x.2) = true)
    (huses : dget snode "uses" = some (SerVal.str path))
    (henv : env path = none) :
    fromDict env (d1 ++ (name, snode) :: rest) =
      Except.error (PyExc.graphSchemaException
        ("Error deserializing graph schema. Can\'t find class for graph component type \'"
          ++ path ++ "\'.")
        (PyExc.importError path)) := by
  induction d1 with
  | nil =>
    unfold fromDict fromDictGo processNode
    simp only [List.nil_append]
    rw [tryBlock_import_error env snode path huses henv]
    simp only [huses, Option.getD, pyStr, bind, Except.bind, Except.map]
  | cons x d1t ih =>
    obtain ⟨xn, xs⟩ := x
    obtain ⟨sx, hsx⟩ := isOkE_true _ (hok (xn, xs) (List.mem_cons_self _ _))
    have ih' := ih (fun y hy => hok y (List.mem_cons_of_mem _ hy))
    unfold fromDict at ih' ⊢
    cases hgo : fromDictGo env (d1t ++ (name, snode) :: rest) with
    | ok p =>
      rw [hgo] at ih'
      simp only [Except.map] at ih'
      exact Except.noConfusion ih'
    | error e =>
      rw [hgo] at ih'
      simp only [Except.map] at ih'
      injection ih' with he
      simp only [List.cons_append, fromDictGo, hsx, bind, Except.bind, Except.map,
        List.append_eq, hgo]
      rw [he]

theorem c8_import_error_witness :
    dget snodeBadUses "uses" = some (SerVal.str "not.a.real.module.Foo") ∧
    envC "not.a.real.module.Foo" = none ∧
    fromDict envC [("n", snodeBadUses)] =
      Except.error (PyExc.graphSchemaException
        ("Error deserializing graph schema. Can\'t find class for graph component type \'"
          ++ "not.a.real.module.Foo" ++ "\'.")
        (PyExc.importError "not.a.real.module.Foo")) :=
  ⟨rfl, rfl,
   c8_import_error envC [] "n" snodeBadUses [] "not.a.real.module.Foo"
     (fun x hx => absurd hx (List.not_mem_nil x)) rfl rfl⟩

theorem parseNeeds_roundtrip (l : List (String × String)) :
    parseNeedsEntries (needsToSer l) = Except.ok l := by
  induction l with
  | nil => rfl
  | cons p rest ih =>
    obtain ⟨k, v⟩ := p
    simp only [needsToSer, List.map, parseNeedsEntries] at ih ⊢
    rw [ih]
    rfl

theorem tryBlock_nodeAsDict (env : String → Option PyClass) (n : SchemaNode)
    (h : env (dottedPath n.uses) = some n.uses) :
    tryBlock env (nodeAsDict n) = Except.ok (mutatedNodeDict n) := by
  cases hr : n.resource with
  | none =>
    simp [tryBlock, nodeAsDict, mutatedNodeDict, hr, getKey, dget,
      classFromModulePath, h, setKey, pyTruthy, bind, Except.bind]
    rfl
  | some r =>
    simp [tryBlock, nodeAsDict, mutatedNodeDict, hr, getKey, dget,
      classFromModulePath, h, setKey, pyTruthy, mkResource, bind, Except.bind]
    rfl

theorem parseSchemaNode_mutated (n : SchemaNode) :
    parseSchemaNode (mutatedNodeDict n) = Except.ok (roundTripNode n) := by
  cases hr : n.resource with
  | none =>
    simp [parseSchemaNode, mutatedNodeDict, roundTripNode, hr, dget,
      schemaNodeFieldNames, memb, List.all_cons, List.all_nil,
      parseNeeds_roundtrip, bind, Except.bind]
    rfl
  | some r =>
    simp [parseSchemaNode, mutatedNodeDict, roundTripNode, hr, dget,
      schemaNodeFieldNames, memb, List.all_cons, List.all_nil,
      parseNeeds_roundtrip, bind, Except.bind]
    rfl

theorem processNode_nodeAsDict (env : String → Option PyClass) (n : SchemaNode)
    (h : env (dottedPath n.uses) = some n.uses) :
    processNode env (nodeAsDict n) = Except.ok (mutatedNodeDict n, roundTripNode n) := by
  unfold processNode
  rw [tryBlock_nodeAsDict env n h]
  simp only [bind, Except.bind, parseSchemaNode_mutated]
  rfl

theorem fromDictGo_map (env : String → Option PyClass)
    (l : List (String × SchemaNode))
    (himp : ∀ p ∈ l, env (dottedPath p.2.uses) = some p.2.uses) :
    fromDictGo env (l.map (fun p => (p.1, nodeAsDict p.2))) =
      Except.ok (l.map (fun p => (p.1, mutatedNodeDict p.2)),
                 l.map (fun p => (p.1, roundTripNode p.2))) := by
  induction l with
  | nil => rfl
  | cons p rest ih =>
    obtain ⟨name, node⟩ := p
    have h1 := himp (name, node) (List.mem_cons_self _ _)
    have ih' := ih (fun q hq => himp q (List.mem_cons_of_mem _ hq))
    simp only [List.map, fromDictGo, processNode_nodeAsDict env node h1, ih',
      bind, Except.bind]
    rfl

theorem fromDict_asDict (env : String → Option PyClass) (g : GraphSchema)
    (himp : ∀ p ∈ g.nodes, env (dottedPath p.2.uses) = some p.2.uses) :
    fromDict env (asDict g) =
      Except.ok (g.nodes.map (fun p => (p.1, mutatedNodeDict p.2)),
                 ⟨g.nodes.map (fun p => (p.1, roundTripNode p.2))⟩) := by
  unfold fromDict asDict
  rw [fromDictGo_map env g.nodes himp]
  rfl

theorem dget_map_of_nodup {α β : Type} (l : List (String × α)) (f : α → β)
    (k : String) (a : α) (hnodup : (l.map Prod.fst).Nodup) (hmem : (k, a) ∈ l) :
    dget (l.map (fun p => (p.1, f p.2))) k = some (f a) := by
  induction l with
  | nil => exact absurd hmem (List.not_mem_nil _)
  | cons p rest ih =>
    obtain ⟨k0, a0⟩ := p
    rcases List.mem_cons.mp hmem with heq | hmem'
    · injection heq with h1 h2
      subst h1; subst h2
      simp [dget]
    · have hne : k0 ≠ k := by
        intro hc
        subst hc
        exact (List.nodup_cons.mp hnodup).1
          (List.mem_map.mpr ⟨(k0, a), hmem', rfl⟩)
      simp only [List.map, dget, hne, if_false]
      exact ih (List.nodup_cons.mp hnodup).2 hmem'

/-- Claim C9: `from_dict` mutates the serialized dict passed to it — after
the call, every node entry holds the resolved class object under `uses`
(where `as_dict` had written the dotted-path string), and a node with a
(non-empty) serialized resource holds a constructed `Resource` object — so
the dict is no longer the JSON-safe representation. -/
theorem c9_from_dict_mutation (env : String → Option PyClass) (g : GraphSchema)
    (hnodup : (g.nodes.map Prod.fst).Nodup)
    (himp : ∀ p ∈ g.nodes, env (dottedPath p.2.uses) = some p.2.uses) :
    ∃ d' g', fromDict env (asDict g) = Except.ok (d', g') ∧
      ∀ p ∈ g.nodes, ∃ sd, dget d' p.1 = some sd ∧
        dget (nodeAsDict p.2) "uses" = some (SerVal.str (dottedPath p.2.uses)) ∧
        dget sd "uses" = some (SerVal.cls p.2.uses) ∧
        (∀ r, p.2.resource = some r →
          dget sd "resource" = some (SerVal.res r)) := by
  refine ⟨_, _, fromDict_asDict env g himp, ?_⟩
  intro p hp
  refine ⟨mutatedNodeDict p.2, ?_, rfl, ?_, ?_⟩
  · exact dget_map_of_nodup g.nodes mutatedNodeDict p.1 p.2 hnodup hp
  · simp [mutatedNodeDict, dget]
  · intro r hr
    simp [mutatedNodeDict, dget, hr]

theorem c9_from_dict_mutation_witness :
    ((gGood.nodes.map Prod.fst).Nodup ∧
     ∀ p ∈ gGood.nodes, envC (dottedPath p.2.uses) = some p.2.uses) ∧
    (∃ d' g', fromDict envC (asDict gGood) = Except.ok (d', g') ∧
      ∀ p ∈ gGood.nodes, ∃ sd, dget d' p.1 = some sd ∧
        dget (nodeAsDict p.2) "uses" = some (SerVal.str (dottedPath p.2.uses)) ∧
        dget sd "uses" = some (SerVal.cls p.2.uses) ∧
        (∀ r, p.2.resource = some r →
          dget sd "resource" = some (SerVal.res r))) :=
  ⟨⟨by decide, by decide⟩,
   c9_from_dict_mutation envC gGood (by decide) (by decide)⟩

theorem map_pair_id {α : Type} (l : List (String × α)) (f : α → α)
    (h : ∀ p ∈ l, f p.2 = p.2) : l.map (fun p => (p.1, f p.2)) = l := by
  induction l with
  | nil => rfl
  | cons p rest ih =>
    simp only [List.map, h p (List.mem_cons_self _ _),
      ih (fun q hq => h q (List.mem_cons_of_mem _ hq))]

/-- Claim C1 fails on the code: `as_dict` serializes with
`dataclasses.asdict`, which recursively flattens dataclass values inside
`config` as well, and `from_dict` never restores them. The acyclic,
importable schema `gRes`, whose node config holds a `Resource` value, round
trips to a schema whose config holds the flattened field map instead — the
round trip is not lossless for it. -/
theorem c1_counterexample :
    envC (dottedPath nodeCfgRes.uses) = some nodeCfgRes.uses ∧
    Acyclic gRes ∧
    fromDict envC (asDict gRes)
      = Except.ok ([("n", mutatedNodeDict nodeCfgRes)], gResRT) ∧
    gResRT ≠ gRes := by
  refine ⟨rfl, ⟨fun _ => 0, ?_⟩, rfl, ?_⟩
  · intro p hp d hd
    simp only [gRes, List.mem_cons, List.not_mem_nil, or_false] at hp
    subst hp
    simp [needsValues, nodeCfgRes] at hd
  · intro h
    simp [gResRT, gRes, nodeCfgRes] at h

/-- Claim C1 amended: for every valid (acyclic) `GraphSchema` whose component
classes are importable by their dotted paths and whose node configs contain
no dataclass values (they are fixed points of the `dataclasses.asdict`
conversion), `GraphSchema.from_dict(s.as_dict())` reconstructs the schema
exactly — same node names and, per node, the same needs, resolved class,
constructor_name, fn, config, eager, is_target, is_input and resource. -/
theorem c1_round_trip_amended (env : String → Option PyClass) (g : GraphSchema)
    (himp : ∀ p ∈ g.nodes, env (dottedPath p.2.uses) = some p.2.uses)
    (hcfg : ∀ p ∈ g.nodes, asdictEntries p.2.config = p.2.config)
    (_hacyc : Acyclic g) :
    ∃ d', fromDict env (asDict g) = Except.ok (d', g) := by
  have hmap : g.nodes.map (fun p => (p.1, roundTripNode p.2)) = g.nodes :=
    map_pair_id g.nodes roundTripNode
      (fun p hp => by rw [roundTripNode, hcfg p hp])
  refine ⟨g.nodes.map (fun p => (p.1, mutatedNodeDict p.2)), ?_⟩
  rw [fromDict_asDict env g himp, hmap]

theorem c1_round_trip_amended_witness :
    (∀ p ∈ gGood.nodes, envC (dottedPath p.2.uses) = some p.2.uses) ∧
    (∀ p ∈ gGood.nodes, asdictEntries p.2.config = p.2.config) ∧
    Acyclic gGood ∧
    ∃ d', fromDict envC (asDict gGood) = Except.ok (d', gGood) := by
  have hcfg : ∀ p ∈ gGood.nodes, asdictEntries p.2.config = p.2.config := by
    intro p hp
    simp only [gGood, List.mem_cons, List.not_mem_nil, or_false] at hp
    rcases hp with rfl | rfl
    · rfl
    · rfl
  have hacyc : Acyclic gGood := by
    refine ⟨fun s => if s = "n2" then 0 else 1, by decide⟩
  exact ⟨by decide, hcfg, hacyc,
    c1_round_trip_amended envC gGood (by decide) hcfg hacyc⟩

theorem dget_mem {α : Type} (l : List (String × α)) (k : String) (a : α)
    (h : dget l k = some a) : (k, a) ∈ l := by
  induction l with
  | nil => exact Option.noConfusion h
  | cons p rest ih =>
    by_cases hp : p.1 = k
    · simp only [dget, hp, if_pos] at h
      injection h with h1
      subst h1
      subst hp
      exact List.mem_cons_self _ _
    · simp only [dget, hp, if_neg] at h
      exact List.mem_cons_of_mem _ (ih h)

theorem mem_keys_find {α : Type} (l : List (String × α)) (k : String)
    (h : k ∈ l.map Prod.fst) : ∃ a, dget l k = some a := by
  induction l with
  | nil => exact absurd h (List.not_mem_nil _)
  | cons p rest ih =>
    by_cases hp : p.1 = k
    · exact ⟨p.2, by simp [dget, hp]⟩
    · rcases List.mem_cons.mp h with heq | hmem
      · exact absurd heq.symm hp
      · obtain ⟨a, ha⟩ := ih hmem
        exact ⟨a, by simp [dget, hp, ha]⟩

theorem find_mem_keys {α : Type} (l : List (String × α)) (k : String) (a : α)
    (h : dget l k = some a) : k ∈ l.map Prod.fst :=
  List.mem_map.mpr ⟨(k, a), dget_mem l k a h, rfl⟩

theorem targetNames_sub (g : GraphSchema) (t : String) (h : t ∈ targetNames g) :
    t ∈ g.nodes.map Prod.fst := by
  unfold targetNames at h
  obtain ⟨p, hp, hp1⟩ := List.mem_map.mp h
  exact List.mem_map.mpr ⟨p, (List.mem_filter.mp hp).1, hp1⟩

theorem RF_trans {g : GraphSchema} {a b c : String}
    (h1 : ReachableFrom g a b) (h2 : ReachableFrom g b c) : ReachableFrom g a c := by
  induction h1 with
  | refl => exact h2
  | step hf d hd _ ih => exact ReachableFrom.step hf d hd (ih h2)

theorem RF_find_exists (g : GraphSchema)
    (hvals : ∀ p ∈ g.nodes, ∀ d ∈ needsValues p.2, d ∈ g.nodes.map Prod.fst)
    {t m : String} (hstart : ∃ node, findNode g t = some node)
    (h : ReachableFrom g t m) : ∃ node, findNode g m = some node := by
  induction h with
  | refl => exact hstart
  | step hf d hd _ ih =>
    refine ih ?_
    have hmem := dget_mem _ _ _ hf
    exact mem_keys_find _ _ (hvals _ hmem d hd)

theorem reach_find (g : GraphSchema)
    (hvals : ∀ p ∈ g.nodes, ∀ d ∈ needsValues p.2, d ∈ g.nodes.map Prod.fst)
    (n : String) (h : Reachable g n) : ∃ node, findNode g n = some node := by
  obtain ⟨t, ht, hrf⟩ := h
  exact RF_find_exists g hvals (mem_keys_find _ _ (targetNames_sub g t ht)) hrf

theorem reach_step {g : GraphSchema} {t d : String} {node : SchemaNode}
    (h : Reachable g t) (hf : findNode g t = some node)
    (hd : d ∈ needsValues node) : Reachable g d := by
  obtain ⟨t0, ht0, hrf⟩ := h
  exact ⟨t0, ht0, RF_trans hrf (ReachableFrom.step hf d hd (ReachableFrom.refl d))⟩

theorem RF_unfold {g : GraphSchema} {t m : String} {node : SchemaNode}
    (h : findNode g t = some node) :
    ReachableFrom g t m ↔ m = t ∨ ∃ d ∈ needsValues node, ReachableFrom g d m := by
  constructor
  · intro hr
    cases hr with
    | refl => exact Or.inl rfl
    | step hf d hd hr' =>
      rw [h] at hf
      injection hf with hf1
      subst hf1
      exact Or.inr ⟨d, hd, hr'⟩
  · intro hr
    rcases hr with rfl | ⟨d, hd, hr'⟩
    · exact ReachableFrom.refl m
    · exact ReachableFrom.step h d hd hr'

theorem allDeps_char (g : GraphSchema) (rank : String → Nat)
    (hex : ∀ n, Reachable g n → ∃ node, findNode g n = some node)
    (hrank : ∀ p node, Reachable g p → findNode g p = some node →
      ∀ d ∈ needsValues node, rank d < rank p) :
    ∀ fuel ts, (∀ t ∈ ts, Reachable g t ∧ rank t < fuel) →
      ∃ l, allDependenciesSchema g fuel ts = some l ∧
        ∀ m, (m ∈ l ↔ ∃ t ∈ ts, ReachableFrom g t m) := by
  intro fuel
  induction fuel using Nat.strong_induction_on with
  | _ fuel ihf =>
    intro ts
    induction ts with
    | nil =>
      intro _
      refine ⟨[], by simp [allDependenciesSchema], ?_⟩
      simp
    | cons t ts iht =>
      intro hts
      obtain ⟨hreach_t, hrank_t⟩ := hts t (List.mem_cons_self _ _)
      obtain ⟨node, hfind⟩ := hex t hreach_t
      cases fuel with
      | zero => exact absurd hrank_t (Nat.not_lt_zero _)
      | succ f =>
        have hdeps : ∀ d ∈ needsValues node, Reachable g d ∧ rank d < f := by
          intro d hd
          refine ⟨reach_step hreach_t hfind hd, ?_⟩
          have h1 := hrank t node hreach_t hfind d hd
          exact Nat.lt_of_lt_of_le h1 (Nat.lt_succ_iff.mp hrank_t)
        obtain ⟨l1, hl1, hm1⟩ := ihf f (Nat.lt_succ_self f) (needsValues node) hdeps
        obtain ⟨l2, hl2, hm2⟩ := iht (fun x hx => hts x (List.mem_cons_of_mem _ hx))
        refine ⟨t :: (l1 ++ l2), ?_, ?_⟩
        · simp [allDependenciesSchema, hfind, hl1, hl2]
        · intro m
          simp only [List.mem_cons, List.mem_append, hm1, hm2]
          constructor
          · intro hc
            rcases hc with hmt | ⟨d, hd, hr⟩ | ⟨t', ht', hr⟩
            · exact ⟨t, Or.inl rfl, by rw [hmt]; exact ReachableFrom.refl t⟩
            · exact ⟨t, Or.inl rfl, (RF_unfold hfind).mpr (Or.inr ⟨d, hd, hr⟩)⟩
            · exact ⟨t', Or.inr ht', hr⟩
          · intro hc
            obtain ⟨t', ht', hr⟩ := hc
            rcases ht' with ht1 | ht2
            · subst ht1
              rcases (RF_unfold hfind).mp hr with hm | ⟨d, hd, hr'⟩
              · exact Or.inl hm
              · exact Or.inr (Or.inl ⟨d, hd, hr'⟩)
            · exact Or.inr (Or.inr ⟨t', ht2, hr⟩)

theorem map_fst_filter_key {α : Type} (l : List (String × α)) (c : String → Bool) :
    ((l.filter (fun p => c p.1)).map Prod.fst) = (l.map Prod.fst).filter c := by
  induction l with
  | nil => rfl
  | cons p rest ih =>
    cases hcp : c p.1 with
    | true => simp [List.filter_cons, hcp, ih]
    | false => simp [List.filter_cons, hcp, ih]

theorem dget_filter_key {α : Type} (l : List (String × α)) (c : String → Bool)
    (k : String) (hk : c k = true) :
    dget (l.filter (fun p => c p.1)) k = dget l k := by
  induction l with
  | nil => rfl
  | cons p rest ih =>
    by_cases hp : p.1 = k
    · have : c p.1 = true := by rw [hp]; exact hk
      simp [List.filter_cons, this, dget, hp, hk]
    · cases hcp : c p.1 with
      | true => simp [List.filter_cons, hcp, dget, hp, ih]
      | false => simp [List.filter_cons, hcp, dget, hp, ih]

theorem targetNames_filter (g : GraphSchema) (c : String → Bool)
    (h : ∀ p ∈ g.nodes, p.2.is_target = true → c p.1 = true) :
    targetNames ⟨g.nodes.filter (fun p => c p.1)⟩ = targetNames g := by
  unfold targetNames
  have hs : ∀ l : List (String × SchemaNode),
      (∀ p ∈ l, p.2.is_target = true → c p.1 = true) →
      ((l.filter (fun p => c p.1)).filter (fun p => p.2.is_target)).map Prod.fst
        = (l.filter (fun p => p.2.is_target)).map Prod.fst := by
    intro l
    induction l with
    | nil => intro _; rfl
    | cons p rest ih =>
      intro hl
      have ih' := ih (fun q hq => hl q (List.mem_cons_of_mem _ hq))
      simp only [List.filter_filter] at ih' ⊢
      cases hct : p.2.is_target with
      | true =>
        have hcp : c p.1 = true := hl p (List.mem_cons_self _ _) hct
        simp [List.filter_cons, hcp, hct, ih']
      | false =>
        cases hcp : c p.1 with
        | true => simp [List.filter_cons, hcp, hct, ih']
        | false => simp [List.filter_cons, hcp, hct, ih']
  exact hs g.nodes h

theorem RF_filter_to (g : GraphSchema) (c : String → Bool) {t m : String}
    (h : ReachableFrom ⟨g.nodes.filter (fun p => c p.1)⟩ t m) :
    ReachableFrom g t m := by
  induction h with
  | refl t0 => exact ReachableFrom.refl t0
  | @step t0 m0 node0 hf d hd hr ih =>
    have hmem := List.mem_filter.mp (dget_mem _ _ _ hf)
    have hfg : findNode g t0 = some node0 := by
      show dget g.nodes t0 = some node0
      rw [← dget_filter_key g.nodes c t0 hmem.2]
      exact hf
    exact ReachableFrom.step hfg d hd ih

theorem RF_filter_from (g : GraphSchema) (c : String → Bool)
    (hc : ∀ n, Reachable g n → c n = true) {t m : String}
    (h : ReachableFrom g t m) :
    Reachable g t → ReachableFrom ⟨g.nodes.filter (fun p => c p.1)⟩ t m := by
  induction h with
  | refl t0 => intro _; exact ReachableFrom.refl t0
  | @step t0 m0 node0 hf d hd hr ih =>
    intro hreach
    have hfind2 : findNode ⟨g.nodes.filter (fun p => c p.1)⟩ t0 = some node0 := by
      show dget _ t0 = some node0
      rw [dget_filter_key g.nodes c t0 (hc t0 hreach)]
      exact hf
    exact ReachableFrom.step hfind2 d hd (ih (reach_step hreach hf hd))

theorem Reachable_filter_iff (g : GraphSchema) (c : String → Bool)
    (hc : ∀ n, Reachable g n → c n = true)
    (htf : targetNames ⟨g.nodes.filter (fun p => c p.1)⟩ = targetNames g) :
    ∀ m, Reachable ⟨g.nodes.filter (fun p => c p.1)⟩ m ↔ Reachable g m := by
  intro m
  constructor
  · intro hm
    obtain ⟨t, ht, hrf⟩ := hm
    rw [htf] at ht
    exact ⟨t, ht, RF_filter_to g c hrf⟩
  · intro hm
    obtain ⟨t, ht, hrf⟩ := hm
    refine ⟨t, ?_, RF_filter_from g c hc hrf ⟨t, ht, ReachableFrom.refl t⟩⟩
    rw [htf]
    exact ht

/-- Claim C2: for a schema whose needs values all name existing nodes and
whose needs graph, restricted to the nodes reachable from targets, is acyclic
(witnessed by a rank decreasing along edges of reachable nodes), running
`minimal_graph_schema` with enough stack (fuel exceeding every rank) returns
a schema whose node set is exactly the nodes reachable from the targets via
`needs` — each exactly once, none unreachable — and applying it twice gives
the same schema as applying it once. -/
theorem c2_minimal_graph_schema (g : GraphSchema) (rank : String → Nat) (fuel : Nat)
    (hnodup : (g.nodes.map Prod.fst).Nodup)
    (hvals : ∀ p ∈ g.nodes, ∀ d ∈ needsValues p.2, d ∈ g.nodes.map Prod.fst)
    (hrank : ∀ p node, Reachable g p → findNode g p = some node →
      ∀ d ∈ needsValues node, rank d < rank p)
    (hfuel : ∀ p ∈ g.nodes.map Prod.fst, rank p < fuel) :
    ∃ g', minimalGraphSchema g fuel = some g' ∧
      (∀ n, n ∈ g'.nodes.map Prod.fst ↔ Reachable g n) ∧
      (g'.nodes.map Prod.fst).Nodup ∧
      minimalGraphSchema g' fuel = some g' := by
  have hex : ∀ n, Reachable g n → ∃ node, findNode g n = some node :=
    fun n hn => reach_find g hvals n hn
  have hts : ∀ t ∈ targetNames g, Reachable g t ∧ rank t < fuel :=
    fun t ht => ⟨⟨t, ht, ReachableFrom.refl t⟩, hfuel t (targetNames_sub g t ht)⟩
  obtain ⟨L0, hL0, hm0⟩ := allDeps_char g rank hex hrank fuel (targetNames g) hts
  have hreach_keys : ∀ n, Reachable g n → n ∈ g.nodes.map Prod.fst := by
    intro n hn
    obtain ⟨node, hf⟩ := hex n hn
    exact find_mem_keys _ _ _ hf
  have hcond : ∀ n, Reachable g n → memb n L0 = true := by
    intro n hn
    exact (memb_iff_mem n L0).mpr ((hm0 n).mpr hn)
  have hg' : minimalGraphSchema g fuel
      = some ⟨g.nodes.filter (fun p => memb p.1 L0)⟩ := by
    unfold minimalGraphSchema
    rw [hL0]
  have hkeys : ∀ n,
      n ∈ (g.nodes.filter (fun p => memb p.1 L0)).map Prod.fst ↔ Reachable g n := by
    intro n
    rw [map_fst_filter_key g.nodes (fun s => memb s L0)]
    constructor
    · intro hn
      have hmf := List.mem_filter.mp hn
      exact (hm0 n).mp ((memb_iff_mem n L0).mp hmf.2)
    · intro hn
      exact List.mem_filter.mpr ⟨hreach_keys n hn, hcond n hn⟩
  have hnodupM : ((g.nodes.filter (fun p => memb p.1 L0)).map Prod.fst).Nodup := by
    rw [map_fst_filter_key g.nodes (fun s => memb s L0)]
    exact hnodup.filter _
  have htgt_cond : ∀ p ∈ g.nodes, p.2.is_target = true → memb p.1 L0 = true := by
    intro p hp ht
    exact hcond p.1 ⟨p.1, List.mem_map.mpr ⟨p, List.mem_filter.mpr ⟨hp, ht⟩, rfl⟩,
      ReachableFrom.refl p.1⟩
  have htf : targetNames ⟨g.nodes.filter (fun p => memb p.1 L0)⟩ = targetNames g :=
    targetNames_filter g (fun s => memb s L0) htgt_cond
  have hriff := Reachable_filter_iff g (fun s => memb s L0) hcond htf
  have hexM : ∀ n, Reachable ⟨g.nodes.filter (fun p => memb p.1 L0)⟩ n →
      ∃ node, findNode ⟨g.nodes.filter (fun p => memb p.1 L0)⟩ n = some node := by
    intro n hn
    have hng := (hriff n).mp hn
    obtain ⟨node, hf⟩ := hex n hng
    refine ⟨node, ?_⟩
    show dget _ n = some node
    rw [dget_filter_key g.nodes (fun s => memb s L0) n (hcond n hng)]
    exact hf
  have hrankM : ∀ p node, Reachable ⟨g.nodes.filter (fun q => memb q.1 L0)⟩ p →
      findNode ⟨g.nodes.filter (fun q => memb q.1 L0)⟩ p = some node →
      ∀ d ∈ needsValues node, rank d < rank p := by
    intro p node hp hf d hd
    have hpg := (hriff p).mp hp
    have hfg : findNode g p = some node := by
      show dget g.nodes p = some node
      rw [← dget_filter_key g.nodes (fun s => memb s L0) p (hcond p hpg)]
      exact hf
    exact hrank p node hpg hfg d hd
  have htsM : ∀ t ∈ targetNames ⟨g.nodes.filter (fun p => memb p.1 L0)⟩,
      Reachable ⟨g.nodes.filter (fun p => memb p.1 L0)⟩ t ∧ rank t < fuel := by
    intro t ht
    refine ⟨⟨t, ht, ReachableFrom.refl t⟩, ?_⟩
    rw [htf] at ht
    exact hfuel t (targetNames_sub g t ht)
  obtain ⟨L1, hL1, hm1⟩ := allDeps_char ⟨g.nodes.filter (fun p => memb p.1 L0)⟩ rank
    hexM hrankM fuel (targetNames ⟨g.nodes.filter (fun p => memb p.1 L0)⟩) htsM
  have hfix : (g.nodes.filter (fun p => memb p.1 L0)).filter
      (fun p => memb p.1 L1) = g.nodes.filter (fun p => memb p.1 L0) := by
    apply List.filter_eq_self.mpr
    intro p hp
    have hkey : p.1 ∈ (g.nodes.filter (fun q => memb q.1 L0)).map Prod.fst :=
      List.mem_map.mpr ⟨p, hp, rfl⟩
    have hr : Reachable g p.1 := (hkeys p.1).mp hkey
    have hrM : Reachable ⟨g.nodes.filter (fun q => memb q.1 L0)⟩ p.1 :=
      (hriff p.1).mpr hr
    exact (memb_iff_mem p.1 L1).mpr ((hm1 p.1).mpr hrM)
  have hidem : minimalGraphSchema ⟨g.nodes.filter (fun p => memb p.1 L0)⟩ fuel
      = some ⟨g.nodes.filter (fun p => memb p.1 L0)⟩ := by
    unfold minimalGraphSchema
    rw [hL1]
    show some (GraphSchema.mk
      ((g.nodes.filter (fun p => memb p.1 L0)).filter (fun p => memb p.1 L1))) = _
    rw [hfix]
  exact ⟨⟨g.nodes.filter (fun p => memb p.1 L0)⟩, hg', hkeys, hnodupM, hidem⟩

theorem rank_of_all (g : GraphSchema) (rank : String → Nat)
    (h : ∀ p ∈ g.nodes, ∀ d ∈ needsValues p.2, rank d < rank p.1) :
    ∀ p node, Reachable g p → findNode g p = some node →
      ∀ d ∈ needsValues node, rank d < rank p :=
  fun p node _ hf d hd => h (p, node) (dget_mem _ _ _ hf) d hd

theorem c2_minimal_graph_schema_witness :
    ((gDiamond.nodes.map Prod.fst).Nodup ∧
     (∀ p ∈ gDiamond.nodes, ∀ d ∈ needsValues p.2, d ∈ gDiamond.nodes.map Prod.fst) ∧
     (∀ p ∈ gDiamond.nodes, ∀ d ∈ needsValues p.2, rankDiamond d < rankDiamond p.1) ∧
     (∀ p ∈ gDiamond.nodes.map Prod.fst, rankDiamond p < 4)) ∧
    ∃ g', minimalGraphSchema gDiamond 4 = some g' ∧
      (∀ n, n ∈ g'.nodes.map Prod.fst ↔ Reachable gDiamond n) ∧
      (g'.nodes.map Prod.fst).Nodup ∧
      minimalGraphSchema g' 4 = some g' :=
  ⟨⟨by decide, by decide, by decide, by decide⟩,
   c2_minimal_graph_schema gDiamond rankDiamond 4 (by decide) (by decide)
     (rank_of_all gDiamond rankDiamond (by decide)) (by decide)⟩

end RasaEngine
